import Mathlib

/-!
Verification development for the quiche excerpt: the QUIC ping timeout
manager (keep-alive vs. retransmittable-on-wire probe arbitration with
exponential backoff and a probe quota) and the insertion-ordered
`SimpleLinkedHashMap` container.

Time is modelled in abstract integral units (microseconds in the source);
timestamps and durations are `Nat`.  The single-shot alarm is modelled as
part of the manager state: `armed` holds the deadline together with the
logical reason the manager remembered when arming it.
-/

namespace QuicPing

/-- The two logical timeout reasons the manager arbitrates between. -/
inductive Reason where
  | keepAlive
  | retransmittableOnWire
deriving DecidableEq, Repr

/-- Modelled from the spec: the state of `QuicPingManager`
(`quic_ping_manager.h` is not part of the excerpt; only its unit tests
are).  Fields follow the spec data model: configured timeouts, the two
optional deadlines, the consecutive-probe counter and the two
configuration bounds.  `armed` models the externally owned single-shot
alarm: the deadline it is armed to, paired with the logical reason the
manager remembered for firing resolution; `none` means not armed. -/
structure QuicPingManager where
  keep_alive_timeout : Nat := 15000
  initial_retransmittable_on_wire_timeout : Nat := 0
  keep_alive_deadline : Option Nat := none
  retransmittable_on_wire_deadline : Option Nat := none
  consecutive_retransmittable_on_wire_count : Nat := 0
  max_aggressive_retransmittable_on_wire_count : Nat := 0
  max_retransmittable_on_wire_ping_count : Nat := 0
deriving DecidableEq, Repr

/-- Modelled from the spec: a freshly constructed manager with the two
configuration bounds supplied externally; nothing armed, counter 0,
probing disabled until a nonzero initial probe timeout is installed. -/
def initManager (maxAggressive maxPingCount : Nat) : QuicPingManager :=
  { max_aggressive_retransmittable_on_wire_count := maxAggressive
    max_retransmittable_on_wire_ping_count := maxPingCount }

end QuicPing

namespace QuicPing

/-- Modelled from the spec: armed alarm state lives beside the manager so
that firing can resolve the remembered reason.  The pair is the manager
plus the alarm contents. -/
structure ManagerWithAlarm where
  mgr : QuicPingManager
  armed : Option (Reason × Nat) := none
deriving DecidableEq, Repr

/-- Modelled from the spec: the backoff rule for the probe candidate
interval, given `n = consecutive_retransmittable_on_wire_count`: the base
interval while `n <= max_aggressive_retransmittable_on_wire_count`, and
`initial * 2^(n - max_aggressive)` past that threshold. -/
def probeInterval (s : QuicPingManager) : Nat :=
  if s.consecutive_retransmittable_on_wire_count ≤
      s.max_aggressive_retransmittable_on_wire_count then
    s.initial_retransmittable_on_wire_timeout
  else
    s.initial_retransmittable_on_wire_timeout *
      2 ^ (s.consecutive_retransmittable_on_wire_count -
           s.max_aggressive_retransmittable_on_wire_count)

/-- Modelled from the spec: probing is enabled iff the initial probe
timeout is nonzero (zero is the disable sentinel) and the quota permits:
`max_retransmittable_on_wire_ping_count` is 0 (unlimited) or the counter
has not exceeded it. -/
def probingAllowed (s : QuicPingManager) : Prop :=
  s.initial_retransmittable_on_wire_timeout ≠ 0 ∧
    (s.max_retransmittable_on_wire_ping_count = 0 ∨
      s.consecutive_retransmittable_on_wire_count ≤
        s.max_retransmittable_on_wire_ping_count)

instance (s : QuicPingManager) : Decidable (probingAllowed s) := by
  unfold probingAllowed; infer_instance

/-- Modelled from the spec: `QuicPingManager::SetAlarm(now,
should_keep_alive, has_in_flight_packets)` (the arm operation; the
implementation file is absent from the excerpt).  If keep-alive is
disabled, cancel and track nothing.  With inflight packets, refresh the
keep-alive deadline and clear the probe deadline.  Otherwise keep an
existing keep-alive deadline (initialising it if absent), and if probing
is allowed and the backed-off candidate lands strictly before the
keep-alive deadline, arm the probe deadline; else clear it and arm the
keep-alive deadline (the spec's convergence rule: once the candidate
would reach past the keep-alive deadline, the keep-alive reason is
reported instead). -/
def SetAlarm (t : ManagerWithAlarm) (now : Nat)
    (should_keep_alive has_in_flight_packets : Bool) : ManagerWithAlarm :=
  if !should_keep_alive then
    { mgr := { t.mgr with
                 keep_alive_deadline := none
                 retransmittable_on_wire_deadline := none }
      armed := none }
  else if has_in_flight_packets then
    { mgr := { t.mgr with
                 keep_alive_deadline := some (now + t.mgr.keep_alive_timeout)
                 retransmittable_on_wire_deadline := none }
      armed := some (Reason.keepAlive, now + t.mgr.keep_alive_timeout) }
  else
    let kad := t.mgr.keep_alive_deadline.getD (now + t.mgr.keep_alive_timeout)
    if probingAllowed t.mgr ∧ now + probeInterval t.mgr < kad then
      { mgr := { t.mgr with
                   keep_alive_deadline := some kad
                   retransmittable_on_wire_deadline :=
                     some (now + probeInterval t.mgr) }
        armed := some (Reason.retransmittableOnWire,
                       now + probeInterval t.mgr) }
    else
      { mgr := { t.mgr with
                   keep_alive_deadline := some kad
                   retransmittable_on_wire_deadline := none }
        armed := some (Reason.keepAlive, kad) }

/-- Modelled from the spec: the fire handler (`OnAlarm`).  When the
armed deadline elapses: if the remembered reason is the probe, increment
the consecutive-probe counter, clear the probe deadline and notify the
probe delegate method; otherwise clear the keep-alive deadline and
notify the keep-alive delegate method.  The manager never re-arms
itself.  The returned `Option Reason` is the single delegate
notification issued (a fire with nothing armed is a caller bug, spec
section 7; it is modelled as a no-op with no notification). -/
def OnAlarm (t : ManagerWithAlarm) : ManagerWithAlarm × Option Reason :=
  match t.armed with
  | none => (t, none)
  | some (Reason.retransmittableOnWire, _) =>
      ({ mgr := { t.mgr with
                    retransmittable_on_wire_deadline := none
                    consecutive_retransmittable_on_wire_count :=
                      t.mgr.consecutive_retransmittable_on_wire_count + 1 }
         armed := none },
       some Reason.retransmittableOnWire)
  | some (Reason.keepAlive, _) =>
      ({ mgr := { t.mgr with keep_alive_deadline := none }
         armed := none },
       some Reason.keepAlive)

/-- Modelled from the spec: `set_keep_alive_timeout`, replacing the base
keep-alive interval. -/
def set_keep_alive_timeout (t : ManagerWithAlarm) (d : Nat) :
    ManagerWithAlarm :=
  { t with mgr := { t.mgr with keep_alive_timeout := d } }

/-- Modelled from the spec: `set_initial_retransmittable_on_wire_timeout`,
replacing the base probe interval; zero disables probing. -/
def set_initial_retransmittable_on_wire_timeout (t : ManagerWithAlarm)
    (d : Nat) : ManagerWithAlarm :=
  { t with mgr := { t.mgr with
                    initial_retransmittable_on_wire_timeout := d } }

/-- Modelled from the spec:
`reset_consecutive_retransmittable_on_wire_count`, setting the counter
back to 0. -/
def reset_consecutive_retransmittable_on_wire_count
    (t : ManagerWithAlarm) : ManagerWithAlarm :=
  { t with mgr := { t.mgr with
                    consecutive_retransmittable_on_wire_count := 0 } }

/-- The operations through which the manager state is mutated (spec
lifecycle: the arm operation, the fire handler, the two setters and the
reset operation). -/
inductive Op where
  | setAlarm (now : Nat) (should_keep_alive has_in_flight_packets : Bool)
  | fire
  | resetCount
  | setKeepAliveTimeout (d : Nat)
  | setInitialRetransmittableOnWireTimeout (d : Nat)
deriving DecidableEq, Repr

/-- One step of the manager lifecycle. -/
def step (t : ManagerWithAlarm) : Op → ManagerWithAlarm
  | Op.setAlarm now ska ifp => SetAlarm t now ska ifp
  | Op.fire => (OnAlarm t).1
  | Op.resetCount => reset_consecutive_retransmittable_on_wire_count t
  | Op.setKeepAliveTimeout d => set_keep_alive_timeout t d
  | Op.setInitialRetransmittableOnWireTimeout d =>
      set_initial_retransmittable_on_wire_timeout t d

/-- Running a sequence of operations from a state. -/
def run (t : ManagerWithAlarm) (ops : List Op) : ManagerWithAlarm :=
  ops.foldl step t

/-- A freshly constructed manager together with its unarmed alarm. -/
def initState (maxAggressive maxPingCount : Nat) : ManagerWithAlarm :=
  { mgr := initManager maxAggressive maxPingCount }

end QuicPing

namespace Quiche

/-- `SimpleLinkedHashMap<Key, Value>` from
`common/simple_linked_hash_map.h`: a map plus a list kept in parallel.
The list (`list_`) holds the `pair<Key, Value>` items in insertion order
and is what iterators traverse; the hash map component maps each key to
the position of its item in the list and is kept consistent with the
list by every operation (enforced by CHECKs in the source), so it is
represented here by position lookup in `list_`.  An iterator is a
position (index) into `list_`; the `end()` iterator is the index
`list_.length`. -/
structure SimpleLinkedHashMap (K V : Type) [DecidableEq K] where
  list_ : List (K × V)

namespace SimpleLinkedHashMap

variable {K V : Type} [DecidableEq K]

/-- `begin()`: the position of the first (insertion-ordered) element. -/
def begin (_ : SimpleLinkedHashMap K V) : Nat := 0

/-- `end()`: the position one beyond the last element. -/
def endPos (m : SimpleLinkedHashMap K V) : Nat := m.list_.length

/-- Dereferencing an iterator: the `pair<Key, Value>` at a position. -/
def deref (m : SimpleLinkedHashMap K V) (pos : Nat) : Option (K × V) :=
  m.list_.get? pos

/-- `find(key)`: the position of the element with the given key, via the
map component (first — and by the consistency invariant, only —
occurrence in the list), or `end()` if the key is absent. -/
def find (m : SimpleLinkedHashMap K V) (key : K) : Nat :=
  match m.list_.findIdx? (fun p => decide (p.1 = key)) with
  | some i => i
  | none => m.endPos

/-- `contains(key)`: `find(key) != end()`. -/
def contains (m : SimpleLinkedHashMap K V) (key : K) : Bool :=
  decide (m.find key ≠ m.endPos)

/-- `front()`: the earliest-inserted element. -/
def front (m : SimpleLinkedHashMap K V) : Option (K × V) :=
  m.list_.head?

/-- `back()`: the most-recently-inserted element. -/
def back (m : SimpleLinkedHashMap K V) : Option (K × V) :=
  m.list_.getLast?

/-- `insert(pair)`: if the map already has the key, return the position
of the existing element and `false` without changing anything;
otherwise push the pair onto the back of the list and return the
position of the newly added (last) element and `true`. -/
def insert (m : SimpleLinkedHashMap K V) (pair : K × V) :
    SimpleLinkedHashMap K V × Nat × Bool :=
  if m.contains pair.1 then
    (m, m.find pair.1, false)
  else
    (⟨m.list_ ++ [pair]⟩, m.list_.length, true)

/-- `size()`: the number of elements (derived from the map component,
which mirrors the list). -/
def size (m : SimpleLinkedHashMap K V) : Nat := m.list_.length

/-- `empty()`: true iff the map holds no element. -/
def empty (m : SimpleLinkedHashMap K V) : Bool := m.list_.isEmpty

end SimpleLinkedHashMap

end Quiche

namespace QuicPing

theorem setAlarm_noInflight_probe (t : ManagerWithAlarm) (now kd : Nat)
    (hallow : probingAllowed t.mgr)
    (hkad : t.mgr.keep_alive_deadline = some kd)
    (hlt : now + probeInterval t.mgr < kd) :
    SetAlarm t now true false =
      { mgr := { t.mgr with
                   keep_alive_deadline := some kd
                   retransmittable_on_wire_deadline :=
                     some (now + probeInterval t.mgr) }
        armed := some (Reason.retransmittableOnWire,
                       now + probeInterval t.mgr) } := by
  unfold SetAlarm
  simp only [Bool.not_true, Bool.false_eq_true, if_false, hkad, Option.getD_some]
  rw [if_pos ⟨hallow, hlt⟩]

theorem setAlarm_noInflight_keepAlive (t : ManagerWithAlarm) (now kd : Nat)
    (hkad : t.mgr.keep_alive_deadline = some kd)
    (hnot : ¬ (probingAllowed t.mgr ∧ now + probeInterval t.mgr < kd)) :
    SetAlarm t now true false =
      { mgr := { t.mgr with
                   keep_alive_deadline := some kd
                   retransmittable_on_wire_deadline := none }
        armed := some (Reason.keepAlive, kd) } := by
  unfold SetAlarm
  simp only [Bool.not_true, Bool.false_eq_true, if_false, hkad, Option.getD_some]
  rw [if_neg hnot]

theorem setAlarm_noInflight_freshKad (t : ManagerWithAlarm) (now : Nat)
    (hkad : t.mgr.keep_alive_deadline = none)
    (hnot : ¬ (probingAllowed t.mgr ∧
               now + probeInterval t.mgr < now + t.mgr.keep_alive_timeout)) :
    SetAlarm t now true false =
      { mgr := { t.mgr with
                   keep_alive_deadline := some (now + t.mgr.keep_alive_timeout)
                   retransmittable_on_wire_deadline := none }
        armed := some (Reason.keepAlive, now + t.mgr.keep_alive_timeout) } := by
  unfold SetAlarm
  simp only [Bool.not_true, Bool.false_eq_true, if_false, hkad, Option.getD_none]
  rw [if_neg hnot]

/-- C6: every Arm call with `should_keep_alive = true` and
`has_in_flight_packets = true` arms the keep-alive deadline with
`deadline - now` exactly the configured `keep_alive_timeout` (including
a value installed via `set_keep_alive_timeout`), regardless of prior
state, and clears any probe deadline. -/
theorem inflight_refreshes_keep_alive (t : ManagerWithAlarm) (now d : Nat) :
    (SetAlarm t now true true).armed =
      some (Reason.keepAlive, now + t.mgr.keep_alive_timeout) ∧
    (SetAlarm t now true true).mgr.keep_alive_deadline =
      some (now + t.mgr.keep_alive_timeout) ∧
    (SetAlarm t now true true).mgr.retransmittable_on_wire_deadline = none ∧
    (SetAlarm (set_keep_alive_timeout t d) now true true).armed =
      some (Reason.keepAlive, now + d) :=
  ⟨rfl, rfl, rfl, rfl⟩

/-- C9: every Arm call with `should_keep_alive = false` cancels the
armed deadline and tracks no keep-alive or probe deadline, regardless of
prior state and of the inflight flag. -/
theorem disable_keep_alive_idle (t : ManagerWithAlarm) (now : Nat)
    (ifp : Bool) :
    (SetAlarm t now false ifp).armed = none ∧
    (SetAlarm t now false ifp).mgr.keep_alive_deadline = none ∧
    (SetAlarm t now false ifp).mgr.retransmittable_on_wire_deadline = none :=
  ⟨rfl, rfl, rfl⟩

/-- C8: when the armed deadline fires, the manager issues exactly one
delegate notification — the one matching the armed reason — and does not
re-arm itself: after the fire handler returns, nothing is armed. -/
theorem fire_notifies_once_and_disarms (t : ManagerWithAlarm) (r : Reason)
    (d : Nat) (h : t.armed = some (r, d)) :
    (OnAlarm t).2 = some r ∧ ((OnAlarm t).1).armed = none := by
  cases r <;> simp [OnAlarm, h]

theorem fire_notifies_once_and_disarms_witness :
    (OnAlarm { mgr := initManager 5 0
               armed := some (Reason.keepAlive, 16005) }).2 =
        some Reason.keepAlive ∧
    ((OnAlarm { mgr := initManager 5 0
                armed := some (Reason.keepAlive, 16005) }).1).armed = none :=
  fire_notifies_once_and_disarms
    { mgr := initManager 5 0, armed := some (Reason.keepAlive, 16005) }
    Reason.keepAlive 16005 rfl

/-- C3: with the counter at most
`max_aggressive_retransmittable_on_wire_count` and probing enabled, an
eligible Arm call schedules the probe with exactly the base interval
`initial_retransmittable_on_wire_timeout` — no backoff. -/
theorem no_backoff_until_threshold (t : ManagerWithAlarm) (now kd : Nat)
    (hcnt : t.mgr.consecutive_retransmittable_on_wire_count ≤
            t.mgr.max_aggressive_retransmittable_on_wire_count)
    (hallow : probingAllowed t.mgr)
    (hkad : t.mgr.keep_alive_deadline = some kd)
    (hlt : now + t.mgr.initial_retransmittable_on_wire_timeout < kd) :
    probeInterval t.mgr = t.mgr.initial_retransmittable_on_wire_timeout ∧
    (SetAlarm t now true false).armed =
      some (Reason.retransmittableOnWire,
            now + t.mgr.initial_retransmittable_on_wire_timeout) := by
  have hpi : probeInterval t.mgr =
      t.mgr.initial_retransmittable_on_wire_timeout := by
    unfold probeInterval
    exact if_pos hcnt
  refine ⟨hpi, ?_⟩
  rw [setAlarm_noInflight_probe t now kd hallow hkad (hpi ▸ hlt), hpi]

theorem no_backoff_until_threshold_witness :
    (SetAlarm { mgr := { keep_alive_timeout := 15000
                         initial_retransmittable_on_wire_timeout := 200
                         keep_alive_deadline := some 16005
                         consecutive_retransmittable_on_wire_count := 3
                         max_aggressive_retransmittable_on_wire_count := 5 } }
       1010 true false).armed =
      some (Reason.retransmittableOnWire, 1210) :=
  (no_backoff_until_threshold
    { mgr := { keep_alive_timeout := 15000
               initial_retransmittable_on_wire_timeout := 200
               keep_alive_deadline := some 16005
               consecutive_retransmittable_on_wire_count := 3
               max_aggressive_retransmittable_on_wire_count := 5 } }
    1010 16005 (by decide) ⟨by decide, Or.inl rfl⟩ rfl (by decide)).2

end QuicPing

namespace QuicPing

theorem probeInterval_backoff (s : QuicPingManager)
    (hk : s.max_aggressive_retransmittable_on_wire_count <
          s.consecutive_retransmittable_on_wire_count) :
    probeInterval s =
      s.initial_retransmittable_on_wire_timeout *
        2 ^ (s.consecutive_retransmittable_on_wire_count -
             s.max_aggressive_retransmittable_on_wire_count) := by
  unfold probeInterval
  rw [if_neg (by omega)]

theorem setAlarm_count (t : ManagerWithAlarm) (now : Nat) (ska ifp : Bool) :
    (SetAlarm t now ska ifp).mgr.consecutive_retransmittable_on_wire_count =
      t.mgr.consecutive_retransmittable_on_wire_count := by
  unfold SetAlarm
  cases ska
  · rfl
  · cases ifp
    · simp only [Bool.not_true, Bool.false_eq_true, if_false]
      split <;> rfl
    · rfl

/-- C1: past the aggressive threshold, an eligible Arm call schedules the
probe interval `initial_retransmittable_on_wire_timeout * 2^(n -
max_aggressive_retransmittable_on_wire_count)`; after that probe fires,
the next interval is exactly double; and once the candidate would reach
past the keep-alive deadline, the armed deadline is the keep-alive
deadline and firing reports the keep-alive reason instead of the probe
reason. -/
theorem exponential_backoff_then_convergence (t : ManagerWithAlarm)
    (now kd : Nat)
    (hallow : probingAllowed t.mgr)
    (hk : t.mgr.max_aggressive_retransmittable_on_wire_count <
          t.mgr.consecutive_retransmittable_on_wire_count)
    (hkad : t.mgr.keep_alive_deadline = some kd) :
    probeInterval t.mgr =
      t.mgr.initial_retransmittable_on_wire_timeout *
        2 ^ (t.mgr.consecutive_retransmittable_on_wire_count -
             t.mgr.max_aggressive_retransmittable_on_wire_count) ∧
    (now + probeInterval t.mgr < kd →
      (SetAlarm t now true false).armed =
        some (Reason.retransmittableOnWire, now + probeInterval t.mgr) ∧
      probeInterval ((OnAlarm (SetAlarm t now true false)).1).mgr =
        2 * probeInterval t.mgr) ∧
    (kd ≤ now + probeInterval t.mgr →
      (SetAlarm t now true false).armed = some (Reason.keepAlive, kd) ∧
      (OnAlarm (SetAlarm t now true false)).2 = some Reason.keepAlive) := by
  refine ⟨probeInterval_backoff t.mgr hk, fun hlt => ?_, fun hge => ?_⟩
  · rw [setAlarm_noInflight_probe t now kd hallow hkad hlt]
    refine ⟨rfl, ?_⟩
    unfold OnAlarm probeInterval
    dsimp only
    rw [if_neg (by omega), if_neg (by omega)]
    have h1 : t.mgr.consecutive_retransmittable_on_wire_count + 1 -
        t.mgr.max_aggressive_retransmittable_on_wire_count =
        (t.mgr.consecutive_retransmittable_on_wire_count -
         t.mgr.max_aggressive_retransmittable_on_wire_count) + 1 := by
      omega
    rw [h1, pow_succ]
    ring
  · rw [setAlarm_noInflight_keepAlive t now kd hkad
      (by rintro ⟨h1, h2⟩; omega)]
    exact ⟨rfl, rfl⟩

theorem exponential_backoff_then_convergence_witness :
    (SetAlarm { mgr := { keep_alive_timeout := 15000
                         initial_retransmittable_on_wire_timeout := 200
                         keep_alive_deadline := some 16005
                         consecutive_retransmittable_on_wire_count := 6
                         max_aggressive_retransmittable_on_wire_count := 5 } }
        1010 true false).armed =
      some (Reason.retransmittableOnWire, 1410) ∧
    probeInterval ((OnAlarm (SetAlarm
      { mgr := { keep_alive_timeout := 15000
                 initial_retransmittable_on_wire_timeout := 200
                 keep_alive_deadline := some 16005
                 consecutive_retransmittable_on_wire_count := 6
                 max_aggressive_retransmittable_on_wire_count := 5 } }
        1010 true false)).1).mgr = 800 := by
  have h := (exponential_backoff_then_convergence
    { mgr := { keep_alive_timeout := 15000
               initial_retransmittable_on_wire_timeout := 200
               keep_alive_deadline := some 16005
               consecutive_retransmittable_on_wire_count := 6
               max_aggressive_retransmittable_on_wire_count := 5 } }
    1010 16005 ⟨by decide, Or.inl rfl⟩ (by decide) rfl).2.1 (by decide)
  exact ⟨h.1, h.2⟩

/-- C2: the consecutive probe counter starts at 0; it increases by
exactly one when a probe-armed deadline fires; it is unchanged by
keep-alive firings, by firings with nothing armed, by every Arm call and
by both setters; the explicit reset operation sets it back to 0; and the
deadline of every probe armed by an Arm call is `now` plus the backoff
interval computed from the counter's current value. -/
theorem consecutive_count_evolution (a b : Nat) (t : ManagerWithAlarm) :
    (initState a b).mgr.consecutive_retransmittable_on_wire_count = 0 ∧
    (step t Op.resetCount).mgr.consecutive_retransmittable_on_wire_count
      = 0 ∧
    (∀ d, t.armed = some (Reason.retransmittableOnWire, d) →
      (step t Op.fire).mgr.consecutive_retransmittable_on_wire_count =
        t.mgr.consecutive_retransmittable_on_wire_count + 1) ∧
    (∀ d, t.armed = some (Reason.keepAlive, d) →
      (step t Op.fire).mgr.consecutive_retransmittable_on_wire_count =
        t.mgr.consecutive_retransmittable_on_wire_count) ∧
    (t.armed = none →
      (step t Op.fire).mgr.consecutive_retransmittable_on_wire_count =
        t.mgr.consecutive_retransmittable_on_wire_count) ∧
    (∀ now ska ifp,
      (step t (Op.setAlarm now ska
        ifp)).mgr.consecutive_retransmittable_on_wire_count =
        t.mgr.consecutive_retransmittable_on_wire_count) ∧
    (∀ d, (step t (Op.setKeepAliveTimeout
        d)).mgr.consecutive_retransmittable_on_wire_count =
        t.mgr.consecutive_retransmittable_on_wire_count) ∧
    (∀ d, (step t (Op.setInitialRetransmittableOnWireTimeout
        d)).mgr.consecutive_retransmittable_on_wire_count =
        t.mgr.consecutive_retransmittable_on_wire_count) ∧
    (∀ now d, (SetAlarm t now true false).armed =
        some (Reason.retransmittableOnWire, d) →
      d = now + probeInterval t.mgr) := by
  refine ⟨rfl, rfl, ?_, ?_, ?_, ?_, fun d => rfl, fun d => rfl, ?_⟩
  · intro d h
    show ((OnAlarm t).1).mgr.consecutive_retransmittable_on_wire_count = _
    unfold OnAlarm
    rw [h]
  · intro d h
    show ((OnAlarm t).1).mgr.consecutive_retransmittable_on_wire_count = _
    unfold OnAlarm
    rw [h]
  · intro h
    show ((OnAlarm t).1).mgr.consecutive_retransmittable_on_wire_count = _
    unfold OnAlarm
    rw [h]
  · intro now ska ifp
    exact setAlarm_count t now ska ifp
  · intro now d h
    unfold SetAlarm at h
    simp only [Bool.not_true, Bool.false_eq_true, if_false] at h
    split at h
    · simp only [Option.some.injEq, Prod.mk.injEq] at h
      exact h.2.symm
    · simp at h

theorem consecutive_count_evolution_witness :
    (step { mgr := initManager 5 0
            armed := some (Reason.retransmittableOnWire, 1210) }
       Op.fire).mgr.consecutive_retransmittable_on_wire_count = 1 :=
  (consecutive_count_evolution 5 0
    { mgr := initManager 5 0
      armed := some (Reason.retransmittableOnWire, 1210) }).2.2.1 1210 rfl

/-- C4: with a nonzero quota `m` and probing enabled, Arm with no
inflight packets arms a probe while the counter is at most `m`; once the
counter exceeds `m` the same call clears the probe deadline and arms
only the keep-alive deadline (at `now + keep_alive_timeout` when none
was tracked), leaves the counter unchanged — so the suppression persists
— and the explicit reset brings the counter back to 0. -/
theorem quota_enforcement (t : ManagerWithAlarm) (now kd : Nat)
    (hm : t.mgr.max_retransmittable_on_wire_ping_count ≠ 0)
    (hinit : t.mgr.initial_retransmittable_on_wire_timeout ≠ 0) :
    (t.mgr.consecutive_retransmittable_on_wire_count ≤
        t.mgr.max_retransmittable_on_wire_ping_count →
      t.mgr.keep_alive_deadline = some kd →
      now + probeInterval t.mgr < kd →
      (SetAlarm t now true false).armed =
        some (Reason.retransmittableOnWire, now + probeInterval t.mgr)) ∧
    (t.mgr.max_retransmittable_on_wire_ping_count <
        t.mgr.consecutive_retransmittable_on_wire_count →
      (SetAlarm t now true
        false).mgr.retransmittable_on_wire_deadline = none ∧
      (t.mgr.keep_alive_deadline = none →
        (SetAlarm t now true false).armed =
          some (Reason.keepAlive, now + t.mgr.keep_alive_timeout)) ∧
      (t.mgr.keep_alive_deadline = some kd →
        (SetAlarm t now true false).armed =
          some (Reason.keepAlive, kd)) ∧
      (SetAlarm t now true
        false).mgr.consecutive_retransmittable_on_wire_count =
        t.mgr.consecutive_retransmittable_on_wire_count ∧
      (reset_consecutive_retransmittable_on_wire_count
        t).mgr.consecutive_retransmittable_on_wire_count = 0) := by
  constructor
  · intro hle hkad hlt
    rw [setAlarm_noInflight_probe t now kd ⟨hinit, Or.inr hle⟩ hkad hlt]
  · intro hgt
    have hnot : ¬ probingAllowed t.mgr := by
      rintro ⟨h1, h2 | h2⟩
      · exact hm h2
      · omega
    refine ⟨?_, fun hkadn => ?_, fun hkads => ?_,
      setAlarm_count t now true false, rfl⟩
    · cases hkado : t.mgr.keep_alive_deadline with
      | none =>
          rw [setAlarm_noInflight_freshKad t now hkado
            (fun hc => hnot hc.1)]
      | some kd2 =>
          rw [setAlarm_noInflight_keepAlive t now kd2 hkado
            (fun hc => hnot hc.1)]
    · rw [setAlarm_noInflight_freshKad t now hkadn (fun hc => hnot hc.1)]
    · rw [setAlarm_noInflight_keepAlive t now kd hkads
        (fun hc => hnot hc.1)]

theorem quota_enforcement_witness :
    (SetAlarm { mgr := { keep_alive_timeout := 15000
                         initial_retransmittable_on_wire_timeout := 200
                         consecutive_retransmittable_on_wire_count := 4
                         max_retransmittable_on_wire_ping_count := 3 } }
       2020 true false).armed = some (Reason.keepAlive, 17020) :=
  ((quota_enforcement
    { mgr := { keep_alive_timeout := 15000
               initial_retransmittable_on_wire_timeout := 200
               consecutive_retransmittable_on_wire_count := 4
               max_retransmittable_on_wire_ping_count := 3 } }
    2020 0 (by decide) (by decide)).2 (by decide)).2.1 rfl

/-- C7: the explicit reset sets the counter to 0, so the backoff
interval is the unmodified base interval again, probing is re-enabled
whatever quota state had been reached, and the next eligible Arm call
schedules the probe at `now + initial_retransmittable_on_wire_timeout`. -/
theorem reset_restores_base_interval (t : ManagerWithAlarm) (now kd : Nat)
    (hinit : t.mgr.initial_retransmittable_on_wire_timeout ≠ 0) :
    (reset_consecutive_retransmittable_on_wire_count
      t).mgr.consecutive_retransmittable_on_wire_count = 0 ∧
    probeInterval (reset_consecutive_retransmittable_on_wire_count t).mgr =
      t.mgr.initial_retransmittable_on_wire_timeout ∧
    probingAllowed
      (reset_consecutive_retransmittable_on_wire_count t).mgr ∧
    (t.mgr.keep_alive_deadline = some kd →
      now + t.mgr.initial_retransmittable_on_wire_timeout < kd →
      (SetAlarm (reset_consecutive_retransmittable_on_wire_count t)
        now true false).armed =
        some (Reason.retransmittableOnWire,
              now + t.mgr.initial_retransmittable_on_wire_timeout)) := by
  have hpi : probeInterval
      (reset_consecutive_retransmittable_on_wire_count t).mgr =
      t.mgr.initial_retransmittable_on_wire_timeout := by
    unfold probeInterval reset_consecutive_retransmittable_on_wire_count
    dsimp only
    rw [if_pos (Nat.zero_le _)]
  have hall : probingAllowed
      (reset_consecutive_retransmittable_on_wire_count t).mgr :=
    ⟨hinit, Or.inr (Nat.zero_le _)⟩
  refine ⟨rfl, hpi, hall, ?_⟩
  intro hkad hlt
  rw [setAlarm_noInflight_probe
    (reset_consecutive_retransmittable_on_wire_count t) now kd hall hkad
    (by rw [hpi]; exact hlt), hpi]

theorem reset_restores_base_interval_witness :
    (SetAlarm (reset_consecutive_retransmittable_on_wire_count
      { mgr := { keep_alive_timeout := 15000
                 initial_retransmittable_on_wire_timeout := 200
                 keep_alive_deadline := some 16005
                 consecutive_retransmittable_on_wire_count := 4
                 max_aggressive_retransmittable_on_wire_count := 3 } })
        1015 true false).armed =
      some (Reason.retransmittableOnWire, 1215) :=
  (reset_restores_base_interval
    { mgr := { keep_alive_timeout := 15000
               initial_retransmittable_on_wire_timeout := 200
               keep_alive_deadline := some 16005
               consecutive_retransmittable_on_wire_count := 4
               max_aggressive_retransmittable_on_wire_count := 3 } }
    1015 16005 (by decide)).2.2.2 rfl (by decide)

end QuicPing

namespace QuicPing

/-- The arbitration invariant from the spec data model: the probe
deadline, when present, never exceeds the keep-alive deadline; a
probe-armed alarm carries exactly the tracked probe deadline; a
keep-alive-armed alarm carries exactly the tracked keep-alive deadline
while no probe deadline is tracked. -/
def Inv (t : ManagerWithAlarm) : Prop :=
  (∀ d, t.mgr.retransmittable_on_wire_deadline = some d →
    ∃ kd, t.mgr.keep_alive_deadline = some kd ∧ d ≤ kd) ∧
  (∀ dl, t.armed = some (Reason.retransmittableOnWire, dl) →
    t.mgr.retransmittable_on_wire_deadline = some dl) ∧
  (∀ dl, t.armed = some (Reason.keepAlive, dl) →
    t.mgr.keep_alive_deadline = some dl ∧
    t.mgr.retransmittable_on_wire_deadline = none)

theorem Inv_initState (a b : Nat) : Inv (initState a b) :=
  ⟨fun d h => Option.noConfusion h, fun dl h => Option.noConfusion h,
   fun dl h => Option.noConfusion h⟩

theorem setAlarm_disable_eq (t : ManagerWithAlarm) (now : Nat)
    (ifp : Bool) :
    SetAlarm t now false ifp =
      { mgr := { t.mgr with
                   keep_alive_deadline := none
                   retransmittable_on_wire_deadline := none }
        armed := none } := rfl

theorem setAlarm_inflight_eq (t : ManagerWithAlarm) (now : Nat) :
    SetAlarm t now true true =
      { mgr := { t.mgr with
                   keep_alive_deadline :=
                     some (now + t.mgr.keep_alive_timeout)
                   retransmittable_on_wire_deadline := none }
        armed := some (Reason.keepAlive,
                       now + t.mgr.keep_alive_timeout) } := rfl

theorem setAlarm_noInflight_eq (t : ManagerWithAlarm) (now : Nat) :
    SetAlarm t now true false =
      (if probingAllowed t.mgr ∧ now + probeInterval t.mgr <
          t.mgr.keep_alive_deadline.getD (now + t.mgr.keep_alive_timeout)
       then
        { mgr := { t.mgr with
                     keep_alive_deadline :=
                       some (t.mgr.keep_alive_deadline.getD
                         (now + t.mgr.keep_alive_timeout))
                     retransmittable_on_wire_deadline :=
                       some (now + probeInterval t.mgr) }
          armed := some (Reason.retransmittableOnWire,
                         now + probeInterval t.mgr) }
       else
        { mgr := { t.mgr with
                     keep_alive_deadline :=
                       some (t.mgr.keep_alive_deadline.getD
                         (now + t.mgr.keep_alive_timeout))
                     retransmittable_on_wire_deadline := none }
          armed := some (Reason.keepAlive,
                         t.mgr.keep_alive_deadline.getD
                           (now + t.mgr.keep_alive_timeout)) }) := rfl

theorem Inv_setAlarm (t : ManagerWithAlarm) (now : Nat) (ska ifp : Bool) :
    Inv (SetAlarm t now ska ifp) := by
  cases ska with
  | false =>
      rw [setAlarm_disable_eq]
      refine ⟨fun d h => ?_, fun dl h => ?_, fun dl h => ?_⟩ <;> simp at h
  | true =>
      cases ifp with
      | true =>
          rw [setAlarm_inflight_eq]
          refine ⟨fun d h => ?_, fun dl h => ?_, fun dl h => ?_⟩
          · simp at h
          · simp at h
          · simp only [Option.some.injEq, Prod.mk.injEq, true_and] at h
            exact ⟨by rw [← h], rfl⟩
      | false =>
          rw [setAlarm_noInflight_eq]
          split
          · rename_i hc
            obtain ⟨hal, hlt⟩ := hc
            refine ⟨fun d h => ?_, fun dl h => ?_, fun dl h => ?_⟩
            · simp only [Option.some.injEq] at h
              refine ⟨_, rfl, ?_⟩
              omega
            · simp only [Option.some.injEq, Prod.mk.injEq, true_and] at h
              rw [← h]
            · simp at h
          · refine ⟨fun d h => ?_, fun dl h => ?_, fun dl h => ?_⟩
            · simp at h
            · simp at h
            · simp only [Option.some.injEq, Prod.mk.injEq, true_and] at h
              exact ⟨by rw [← h], rfl⟩

theorem Inv_onAlarm (t : ManagerWithAlarm) (hI : Inv t) :
    Inv (OnAlarm t).1 := by
  obtain ⟨mgr, armed⟩ := t
  obtain ⟨h1, h2, h3⟩ := hI
  cases armed with
  | none => exact ⟨h1, h2, h3⟩
  | some rd =>
      obtain ⟨r, d⟩ := rd
      cases r with
      | keepAlive =>
          obtain ⟨hkad, hrow⟩ := h3 d rfl
          refine ⟨fun d2 h => ?_, fun dl h => ?_, fun dl h => ?_⟩
          · have h' : mgr.retransmittable_on_wire_deadline = some d2 := h
            rw [hrow] at h'
            exact Option.noConfusion h'
          · have h' : (none : Option (Reason × Nat)) =
                some (Reason.retransmittableOnWire, dl) := h
            exact Option.noConfusion h'
          · have h' : (none : Option (Reason × Nat)) =
                some (Reason.keepAlive, dl) := h
            exact Option.noConfusion h'
      | retransmittableOnWire =>
          refine ⟨fun d2 h => ?_, fun dl h => ?_, fun dl h => ?_⟩
          · have h' : (none : Option Nat) = some d2 := h
            exact Option.noConfusion h'
          · have h' : (none : Option (Reason × Nat)) =
                some (Reason.retransmittableOnWire, dl) := h
            exact Option.noConfusion h'
          · have h' : (none : Option (Reason × Nat)) =
                some (Reason.keepAlive, dl) := h
            exact Option.noConfusion h'

theorem Inv_step (t : ManagerWithAlarm) (op : Op) (hI : Inv t) :
    Inv (step t op) := by
  cases op with
  | setAlarm now ska ifp => exact Inv_setAlarm t now ska ifp
  | fire => exact Inv_onAlarm t hI
  | resetCount => exact hI
  | setKeepAliveTimeout d => exact hI
  | setInitialRetransmittableOnWireTimeout d => exact hI

theorem Inv_run (ops : List Op) (t : ManagerWithAlarm) (hI : Inv t) :
    Inv (run t ops) := by
  induction ops generalizing t with
  | nil => exact hI
  | cons op rest ih => exact ih (step t op) (Inv_step t op hI)

/-- C5: along every operation sequence from a fresh manager, the probe
deadline, when present, is at most the keep-alive deadline, and when an
alarm is armed while both deadlines are tracked, the armed reason is the
probe and the armed deadline is the earlier (the minimum) of the two. -/
theorem armed_reason_exclusive (a b : Nat) (ops : List Op) :
    (∀ d, (run (initState a b)
        ops).mgr.retransmittable_on_wire_deadline = some d →
      ∃ kd, (run (initState a b) ops).mgr.keep_alive_deadline = some kd ∧
        d ≤ kd) ∧
    (∀ r dl p k, (run (initState a b) ops).armed = some (r, dl) →
      (run (initState a b)
        ops).mgr.retransmittable_on_wire_deadline = some p →
      (run (initState a b) ops).mgr.keep_alive_deadline = some k →
      r = Reason.retransmittableOnWire ∧ dl = min p k) := by
  obtain ⟨h1, h2, h3⟩ := Inv_run ops (initState a b) (Inv_initState a b)
  refine ⟨h1, ?_⟩
  intro r dl p k harm hrow hkad
  cases r with
  | keepAlive =>
      obtain ⟨_, hnone⟩ := h3 dl harm
      rw [hnone] at hrow
      simp at hrow
  | retransmittableOnWire =>
      refine ⟨rfl, ?_⟩
      have hd := h2 dl harm
      obtain ⟨kd, hkd, hle⟩ := h1 dl hd
      rw [hd] at hrow
      rw [hkd] at hkad
      simp only [Option.some.injEq] at hrow hkad
      omega

theorem armed_reason_exclusive_witness :
    Reason.retransmittableOnWire = Reason.retransmittableOnWire ∧
    (1200 : Nat) = min 1200 16000 :=
  (armed_reason_exclusive 5 0
    [Op.setInitialRetransmittableOnWireTimeout 200,
     Op.setAlarm 1000 true false]).2
    Reason.retransmittableOnWire 1200 1200 16000 (by decide) (by decide)
    (by decide)

end QuicPing

namespace Quiche

namespace SimpleLinkedHashMap

theorem findIdx?_concat_of_none {α : Type} (l : List α) (x : α)
    (p : α → Bool) (h : l.findIdx? p = none) (hx : p x = true) :
    (l ++ [x]).findIdx? p = some l.length := by
  induction l with
  | nil => simp [List.findIdx?_cons, hx]
  | cons a as ih =>
      rw [List.findIdx?_cons] at h
      split at h
      · exact absurd h (by simp)
      · rw [List.findIdx?_succ] at h
        have has : as.findIdx? p = none := by
          cases hcase : as.findIdx? p with
          | none => rfl
          | some i => rw [hcase] at h; simp at h
        rw [List.cons_append, List.findIdx?_cons]
        rename_i hpa
        rw [if_neg hpa, List.findIdx?_succ, ih has]
        simp

variable {K V : Type} [DecidableEq K]

theorem find_eq_of_findIdx?_none (m : SimpleLinkedHashMap K V) (k : K)
    (h : m.list_.findIdx? (fun q => decide (q.1 = k)) = none) :
    m.find k = m.endPos := by
  unfold find
  rw [h]

theorem findIdx?_none_of_not_contains (m : SimpleLinkedHashMap K V)
    (k : K) (hc : m.contains k = false) :
    m.list_.findIdx? (fun q => decide (q.1 = k)) = none := by
  cases hcase : m.list_.findIdx? (fun q => decide (q.1 = k)) with
  | none => rfl
  | some i =>
      have hi : i < m.list_.length :=
        (List.findIdx?_eq_some_iff_findIdx_eq.mp hcase).1
      have hfind : m.find k = i := by
        unfold find
        rw [hcase]
      have hne : m.find k ≠ m.endPos := by
        rw [hfind]
        unfold endPos
        omega
      unfold contains at hc
      rw [decide_eq_false_iff_not] at hc
      exact absurd hne hc

end SimpleLinkedHashMap

/-- C10: inserting a pair with an absent key succeeds: it returns `true`
and the position of the new element, which holds the inserted pair, is
returned by `find`, makes `contains` true, is the `back()`
(most-recently-inserted) element, and extends the insertion-order list
at its end; inserting a pair whose key is present returns the position
of the existing element and `false` and leaves the container unchanged. -/
theorem insert_find_back {K V : Type} [DecidableEq K]
    (m : SimpleLinkedHashMap K V) (k : K) (v : V) :
    (m.contains k = false →
      (m.insert (k, v)).2.2 = true ∧
      (m.insert (k, v)).1.deref (m.insert (k, v)).2.1 = some (k, v) ∧
      (m.insert (k, v)).1.find k = (m.insert (k, v)).2.1 ∧
      (m.insert (k, v)).1.contains k = true ∧
      (m.insert (k, v)).1.back = some (k, v) ∧
      (m.insert (k, v)).1.list_ = m.list_ ++ [(k, v)]) ∧
    (m.contains k = true →
      (m.insert (k, v)).1 = m ∧
      (m.insert (k, v)).2.2 = false ∧
      (m.insert (k, v)).2.1 = m.find k) := by
  constructor
  · intro hc
    have hnone := SimpleLinkedHashMap.findIdx?_none_of_not_contains m k hc
    have hins : m.insert (k, v) =
        (⟨m.list_ ++ [(k, v)]⟩, m.list_.length, true) := by
      unfold SimpleLinkedHashMap.insert
      rw [if_neg (by rw [hc]; simp)]
    rw [hins]
    have hfindidx : (m.list_ ++ [(k, v)]).findIdx?
        (fun q => decide (q.1 = k)) = some m.list_.length :=
      SimpleLinkedHashMap.findIdx?_concat_of_none m.list_ (k, v) _ hnone
        (by simp)
    refine ⟨rfl, ?_, ?_, ?_, ?_, rfl⟩
    · exact List.get?_concat_length m.list_ (k, v)
    · unfold SimpleLinkedHashMap.find
      rw [hfindidx]
    · unfold SimpleLinkedHashMap.contains
      rw [decide_eq_true_iff]
      unfold SimpleLinkedHashMap.find SimpleLinkedHashMap.endPos
      rw [hfindidx]
      simp
    · exact List.getLast?_concat m.list_
  · intro hc
    have hins : m.insert (k, v) = (m, m.find k, false) := by
      unfold SimpleLinkedHashMap.insert
      rw [if_pos hc]
    rw [hins]
    exact ⟨rfl, rfl, rfl⟩

theorem insert_find_back_witness :
    (SimpleLinkedHashMap.insert (K := Nat) (V := Nat) ⟨[(1, 10)]⟩
      (2, 20)).1.back = some (2, 20) ∧
    (SimpleLinkedHashMap.insert (K := Nat) (V := Nat) ⟨[(1, 10)]⟩
      (2, 20)).1.list_ = [(1, 10), (2, 20)] ∧
    (SimpleLinkedHashMap.insert (K := Nat) (V := Nat) ⟨[(1, 10)]⟩
      (2, 20)).2.2 = true := by
  have h := (insert_find_back (⟨[(1, 10)]⟩ : SimpleLinkedHashMap Nat Nat)
    2 20).1 (by decide)
  exact ⟨h.2.2.2.2.1, h.2.2.2.2.2, h.1⟩

end Quiche
